import Mathlib

/-!
Shallow embedding of the knowledge-graph pipeline of this repository
(`visualize_ms.py`, `search_graph.py`, `search_graph_with_llm.py`).

The graph is a `networkx.DiGraph`; we model it as insertion-ordered
association lists of nodes and directed edges, each carrying an attribute
record whose optional fields mirror the attribute keys the Python code may
or may not have set on a given node or edge.
-/

namespace WifiNetworkx

/-! ## Python string helpers -/

/-- Python substring test `needle in hay` on lists of characters. -/
def containsSub (hay needle : List Char) : Bool :=
  if needle.isPrefixOf hay then true
  else
    match hay with
    | [] => false
    | _ :: t => containsSub t needle

/-- Python `needle in hay` on strings. -/
def pyIn (needle hay : String) : Bool :=
  containsSub hay.data needle.data

/-- Python `str.lower()`.  `Char.toLower` lowers ASCII letters; that covers
every character appearing in the claims (e.g. the `C` of `"Café"`). -/
def pyLower (s : String) : String :=
  ⟨s.data.map Char.toLower⟩

/-- The whitespace characters stripped by Python `str.strip()` (ASCII part). -/
def pySpace (c : Char) : Bool :=
  c = ' ' || c = '\t' || c = '\n' || c = '\r' || c = '\x0b' || c = '\x0c'

/-- Python `str.strip()`: drop leading and trailing whitespace. -/
def pyStrip (s : String) : String :=
  ⟨((s.data.dropWhile pySpace).reverse.dropWhile pySpace).reverse⟩

/-- Python string comparison `a < b`: lexicographic on code points. -/
def pyStrLt : List Char → List Char → Bool
  | [], [] => false
  | [], _ :: _ => true
  | _ :: _, [] => false
  | a :: as, b :: bs => if a < b then true else if b < a then false else pyStrLt as bs

/-- A loosely-typed Python value, as found in the JSON input records
(`relationship_strength` may be an int, a string, or `null`). -/
inductive PyVal where
  | vInt (n : Int)
  | vStr (s : String)
  | vNone
deriving Repr, DecidableEq

/-- Accumulating decimal-digit parser; `none` on any non-digit. -/
def digitsToNatGo : List Char → Nat → Option Nat
  | [], acc => some acc
  | c :: rest, acc =>
      if '0' ≤ c ∧ c ≤ '9' then digitsToNatGo rest (acc * 10 + (c.toNat - '0'.toNat))
      else none

/-- Decimal digits to a number; `none` on a non-digit or the empty list. -/
def digitsToNat? : List Char → Option Nat
  | [] => none
  | cs => digitsToNatGo cs 0

/-- Python `int` applied to a plain decimal numeral string (an optional
leading minus sign then digits); anything else raises `ValueError`.
(Python also tolerates surrounding whitespace, a `+` sign and `_`
separators — none of which occur in the claims.) -/
def strToInt? (s : String) : Option Int :=
  match s.data with
  | '-' :: rest => (digitsToNat? rest).map (fun n => -(n : Int))
  | l => (digitsToNat? l).map (fun n => (n : Int))

/-- Python `int(x)` as used on `rel.get('relationship_strength', 1)`
(`visualize_ms.py` line 223).  A missing key defaults to `1`; an int is
returned as is; a plain numeral string parses; anything else raises
(`ValueError`/`TypeError`), which nothing in `build_graph` catches. -/
def relationshipStrength (v : Option PyVal) : Except String Int :=
  match v with
  | none => .ok 1
  | some (.vInt n) => .ok n
  | some (.vStr s) =>
      match strToInt? s with
      | some n => .ok n
      | none => .error "ValueError: invalid literal for int()"
  | some .vNone => .error "TypeError: int() argument must not be None"

/-! ## Graph data model (networkx.DiGraph attribute dictionaries) -/

/-- Node attribute dictionary.  `group` and `title` are set by every code
path that creates a node; the other keys may be absent. -/
structure NodeAttrs where
  group : String
  title : String
  description : Option String := none
  degree : Option Nat := none
  community : Option Nat := none
  communityColor : Option String := none
deriving Repr, DecidableEq

/-- Edge attribute dictionary.  The relationships path sets
`title/label/weight/description`; the legacy events path sets only
`label/title/group` (in particular no `weight` key). -/
structure EdgeAttrs where
  weight : Option Int := none
  description : Option String := none
  label : Option String := none
  title : Option String := none
  group : Option String := none
deriving Repr, DecidableEq

/-- A directed graph: insertion-ordered association lists keyed by node
name and by ordered (source, target) pair. -/
structure Graph where
  nodes : List (String × NodeAttrs) := []
  edges : List ((String × String) × EdgeAttrs) := []
deriving Repr, DecidableEq

def emptyGraph : Graph := {}

/-- Dictionary lookup in an association list (first binding wins; upserts
keep keys unique, so this is exactly a Python dict read). -/
def assocFind? {κ β : Type} [BEq κ] (l : List (κ × β)) (k : κ) : Option β :=
  (l.find? (fun p => p.1 == k)).map (·.2)

/-- Dictionary write to an existing key. -/
def assocSet {κ β : Type} [BEq κ] (l : List (κ × β)) (k : κ) (b : β) : List (κ × β) :=
  l.map (fun p => (p.1, if p.1 == k then b else p.2))

def findNode (G : Graph) (n : String) : Option NodeAttrs :=
  assocFind? G.nodes n

/-- `G.has_node(n)`. -/
def hasNode (G : Graph) (n : String) : Bool :=
  (findNode G n).isSome

/-- Overwrite the attribute record of an existing node (dict update on the
value stored under an existing key; a no-op when the key is absent). -/
def setNode (G : Graph) (n : String) (a : NodeAttrs) : Graph :=
  { G with nodes := assocSet G.nodes n a }

/-- Insert a fresh node at the end (Python dict insertion order). -/
def addNode (G : Graph) (n : String) (a : NodeAttrs) : Graph :=
  { G with nodes := G.nodes ++ [(n, a)] }

def findEdge (G : Graph) (u v : String) : Option EdgeAttrs :=
  assocFind? G.edges (u, v)

/-- `G.has_edge(u, v)`. -/
def hasEdge (G : Graph) (u v : String) : Bool :=
  (findEdge G u v).isSome

def setEdge (G : Graph) (u v : String) (a : EdgeAttrs) : Graph :=
  { G with edges := assocSet G.edges (u, v) a }

def addEdge (G : Graph) (u v : String) (a : EdgeAttrs) : Graph :=
  { G with edges := G.edges ++ [((u, v), a)] }

/-- The `group` attribute of a node, when the node exists. -/
def nodeGroup (G : Graph) (n : String) : Option String :=
  (findNode G n).map (·.group)

/-- The `description` attribute of a node (`none` when the node or the key
is absent). -/
def nodeDescription (G : Graph) (n : String) : Option String :=
  (findNode G n).bind (·.description)

/-- The `community` attribute of a node (`none` when the node or the key
is absent). -/
def nodeCommunity (G : Graph) (n : String) : Option Nat :=
  (findNode G n).bind (·.community)

/-- The `weight` attribute of the edge (u, v) (`none` when the edge or the
key is absent). -/
def edgeWeight (G : Graph) (u v : String) : Option Int :=
  (findEdge G u v).bind (·.weight)

/-! ## Graph Builder (`KnowledgeGraphVisualizer._process_single_data_block`) -/

/-- `_format_tooltip` (lines 275-283). -/
def formatTooltip (name etype desc : String) : String :=
  let base := s!"<b>{name}</b><br>類型: {etype}<br>"
  if desc ≠ "" then
    let safeDesc := desc.replace "\n" "<br>"
    base ++ s!"<div style=\"max-width: 300px; white-space: pre-wrap; margin-top: 5px;\">描述: {safeDesc}</div>"
  else base

/-- One extracted entity record; `Option` mirrors `dict.get` on possibly
missing keys (a missing `entity_name` is Python `None`, falsy like `""`). -/
structure EntityRec where
  entity_name : Option String := none
  entity_type : Option String := none
  entity_description : Option String := none
deriving Repr, DecidableEq

/-- The entities branch of `_process_single_data_block` (lines 190-215). -/
def processEntity (G : Graph) (e : EntityRec) : Graph :=
  let name := e.entity_name.getD ""
  let etype := e.entity_type.getD "未知"
  let desc := e.entity_description.getD ""
  if name = "" then G
  else
    match findNode G name with
    | some node =>
        let node1 := if node.group = "未知" ∧ etype ≠ "未知" then { node with group := etype } else node
        let currentDesc := node1.description.getD ""
        let node2 :=
          if desc ≠ "" ∧ ¬ pyIn desc currentDesc then
            let newDesc := if currentDesc ≠ "" then currentDesc ++ "\n• " ++ desc else desc
            { node1 with description := some newDesc,
                         title := formatTooltip name node1.group newDesc }
          else node1
        setNode G name node2
    | none =>
        addNode G name { group := etype, title := formatTooltip name etype desc,
                         description := some desc }

/-- Lines 227-230: `if not self.G.has_node(x): self.G.add_node(x,
group='未知', title=x)`. -/
def ensureNode (G : Graph) (n : String) : Graph :=
  if hasNode G n then G else addNode G n { group := "未知", title := n }

/-- Lines 234-242: the edge already exists — `edge['weight'] += strength`
then the description merge.  Reading the `weight` key raises `KeyError`
when it is absent (only legacy-created edges lack it; no claim mixes the
legacy path into this one). -/
def mergeEdge (G : Graph) (src tgt : String) (strength : Int) (desc : String)
    (edge : EdgeAttrs) : Option Int → Except String Graph
  | none => .error "KeyError: weight"
  | some w =>
      let w2 := w + strength
      let currentDesc := edge.description.getD ""
      let edge1 := { edge with weight := some w2 }
      let edge2 :=
        if desc ≠ "" ∧ ¬ pyIn desc currentDesc then
          let newDesc := currentDesc ++ "\n• " ++ desc
          { edge1 with description := some newDesc,
                       title := some s!"總強度: {w2}\n描述:\n{newDesc}" }
        else edge1
      .ok (setEdge G src tgt edge2)

/-- Lines 243-251: fresh edge (label truncated after 10 characters). -/
def newEdge (G : Graph) (src tgt : String) (strength : Int) (desc : String) : Graph :=
  let label := if desc.length > 10 then (desc.take 10) ++ "..." else desc
  addEdge G src tgt
    { title := some s!"強度: {strength}\n描述: {desc}", label := some label,
      weight := some strength, description := some desc }

/-- Lines 233-251: the edge upsert itself (endpoints already ensured). -/
def upsertEdgeAttrs (G : Graph) (src tgt : String) (strength : Int) (desc : String) :
    Except String Graph :=
  match findEdge G src tgt with
  | some edge => mergeEdge G src tgt strength desc edge edge.weight
  | none => .ok (newEdge G src tgt strength desc)

/-- The body of the relationships branch (lines 225-251), after
`relationship_strength` has been converted by `int(...)`: the
`if src and tgt` guard, endpoint creation, then the edge upsert. -/
def addRelationship (G : Graph) (src tgt : String) (strength : Int) (desc : String) :
    Except String Graph :=
  if src = "" ∨ tgt = "" then .ok G
  else upsertEdgeAttrs (ensureNode (ensureNode G src) tgt) src tgt strength desc

/-- One extracted relationship record. -/
structure RelRec where
  source_entity : Option String := none
  target_entity : Option String := none
  relationship_description : Option String := none
  relationship_strength : Option PyVal := none
deriving Repr, DecidableEq

/-- The relationships branch of `_process_single_data_block` (lines
219-251): `int(...)` runs (line 223) before the `if src and tgt` guard. -/
def processRelationship (G : Graph) (r : RelRec) : Except String Graph := do
  let strength ← relationshipStrength r.relationship_strength
  addRelationship G (r.source_entity.getD "") (r.target_entity.getD "")
    strength (r.relationship_description.getD "")

/-- A normalized upsert operation (the spec's `CanonicalOp`): the two builder
actions of `_process_single_data_block` with all fields present and the
strength already an integer. -/
inductive Op where
  | upsertEntity (name etype desc : String)
  | upsertEdge (src tgt : String) (strength : Int) (desc : String)
deriving Repr, DecidableEq

def applyOp (G : Graph) : Op → Except String Graph
  | .upsertEntity n t d => .ok (processEntity G ⟨some n, some t, some d⟩)
  | .upsertEdge s t w d => addRelationship G s t w d

def applyOps (G : Graph) : List Op → Except String Graph
  | [] => .ok G
  | op :: rest =>
      match applyOp G op with
      | .ok G2 => applyOps G2 rest
      | .error e => .error e

/-! ## Legacy events path (`_process_legacy_events`, lines 257-273) -/

/-- `networkx` `G.add_node(n, **attrs)`: update the listed attribute keys
of an existing node (keeping the others), or insert a fresh node. -/
def legacyAddNode (G : Graph) (n grp ttl : String) : Graph :=
  match findNode G n with
  | some a => setNode G n { a with group := grp, title := ttl }
  | none => addNode G n { group := grp, title := ttl }

/-- `networkx` `G.add_edge(u, v, label=rel, title=rel, group=cat)`: update
those three keys of an existing edge (keeping e.g. `weight`), or insert a
fresh edge carrying only those keys — in particular no `weight` key. -/
def legacyAddEdge (G : Graph) (u v rel cat : String) : Graph :=
  match findEdge G u v with
  | some a => setEdge G u v { a with label := some rel, title := some rel, group := some cat }
  | none => addEdge G u v { label := some rel, title := some rel, group := some cat }

/-- One `[subject, relation, object, category?]` triple (lines 266-273);
entries that are not lists of length ≥ 3 are skipped. -/
def processTriple (G : Graph) (t : List String) : Graph :=
  match t with
  | subj :: rel :: obj :: rest =>
      let cat := rest.headD "关联"
      legacyAddEdge (legacyAddNode (legacyAddNode G subj "未知" subj) obj "未知" obj)
        subj obj rel cat
  | _ => G

/-- One legacy event (lines 259-273); `event.get('event_name', '')`. -/
def processEvent (G : Graph) (eventName : String) (triples : List (List String)) : Graph :=
  let G1 := if eventName ≠ "" then legacyAddNode G eventName "事件" s!"事件: {eventName}" else G
  triples.foldl processTriple G1

/-! ## Community Detector (`_apply_louvain_communities`, lines 139-176) -/

/-- The predefined colour palette (lines 154-158). -/
def palette : List String :=
  ["#FF6B6B", "#4ECDC4", "#45B7D1", "#96CEB4", "#FFEEAD",
   "#D4A5A5", "#9B59B6", "#3498DB", "#E67E22", "#2ECC71",
   "#F1C40F", "#E74C3C", "#1ABC9C", "#8E44AD", "#2C3E50"]

/-- Annotate one node with its community index and colour (lines 163-169).
`self.G.nodes[node]['community'] = i` presumes the node exists (Louvain
communities are subsets of the node set); on an absent name this is a
no-op. -/
def assignNode (i : Nat) (G : Graph) (node : String) : Graph :=
  match findNode G node with
  | some a =>
      setNode G node { a with community := some i,
                              communityColor := some (palette.getD (i % palette.length) ""),
                              title := a.title ++ s!"<br>Community: {i}" }
  | none => G

/-- The `for node in community` loop (line 162). -/
def assignCommunity (G : Graph) (c : List String) (i : Nat) : Graph :=
  c.foldl (assignNode i) G

/-- The `for i, community in enumerate(communities)` loop (line 160),
with `i` starting at `base`. -/
def assignCommunitiesFrom (G : Graph) (base : Nat) : List (List String) → Graph
  | [] => G
  | c :: rest => assignCommunitiesFrom (assignCommunity G c base) (base + 1) rest

/-- The except-branch of `_apply_louvain_communities` (lines 171-176):
delete any residual `community_color` key from every node; nothing else
(in particular no `community` id) is touched. -/
def louvainFallback (G : Graph) : Graph :=
  { G with nodes := G.nodes.map (fun p => (p.1, { p.2 with communityColor := none })) }

/-- `_apply_louvain_communities`: `nx.community.louvain_communities` is
external library code, so its outcome — a list of communities, or any
raised exception — is passed in as an argument. -/
def applyLouvainCommunities (G : Graph) (result : Except String (List (List String))) : Graph :=
  match result with
  | .ok communities => assignCommunitiesFrom G 0 communities
  | .error _ => louvainFallback G

/-! ## Query Engine -/

/-- Outcome of `GraphSearcher.search` in `search_graph.py` (lines 43-71):
either the early return on an empty (stripped) query, or the
"未找到匹配的實體" report, or the list of matched node names in node order. -/
inductive PlainResult where
  | emptyQuery
  | notFound
  | found (names : List String)
deriving Repr, DecidableEq

/-- `GraphSearcher.search` of `search_graph.py`: only node names are
searched (`query.lower() in str(node).lower()`, line 60). -/
def searchPlain (G : Graph) (query : String) : PlainResult :=
  let query := pyStrip query
  if query = "" then .emptyQuery
  else
    let found := (G.nodes.filter (fun p => pyIn (pyLower query) (pyLower p.1))).map (·.1)
    if found = [] then .notFound else .found found

/-- Outcome of `GraphSearcher.search` in `search_graph_with_llm.py`
(lines 65-123): name matches and type matches are reported separately. -/
inductive LlmResult where
  | emptyQuery
  | notFound
  | found (byName byType : List String)
deriving Repr, DecidableEq

/-- The name-match stage of the node loop of `search_graph_with_llm.py`
(lines 86-92): append to `matches_name` when the query is a substring of
the node name, filtered by the type hint when one is given (`if
entity_type and entity_type != "Unknown"` — a `None` or empty hint skips
the filter). -/
def llmNameStage (query : String) (entityType : Option String)
    (acc : List String × List String) (nodeName nodeGroup : String) :
    List String × List String :=
  if pyIn (pyLower query) (pyLower nodeName) then
    match entityType with
    | some et =>
        if et ≠ "" ∧ et ≠ "Unknown" then
          if pyIn (pyLower et) (pyLower nodeGroup) ∨ pyIn (pyLower nodeGroup) (pyLower et) then
            (acc.1 ++ [nodeName], acc.2)
          else acc
        else (acc.1 ++ [nodeName], acc.2)
    | none => (acc.1 ++ [nodeName], acc.2)
  else acc

/-- The type-match stage (lines 94-98): append to `matches_type` when the
query is a substring of the node's group and the node is not already
listed. -/
def llmTypeStage (query : String) (acc1 : List String × List String)
    (nodeName nodeGroup : String) : List String × List String :=
  if pyIn (pyLower query) (pyLower nodeGroup) then
    if ¬ nodeName ∈ acc1.1 ∧ ¬ nodeName ∈ acc1.2 then (acc1.1, acc1.2 ++ [nodeName])
    else acc1
  else acc1

/-- One iteration of the node loop of `search_graph_with_llm.py`
(lines 81-98), appending to the accumulated `(matches_name, matches_type)`. -/
def llmSearchStep (query : String) (entityType : Option String)
    (acc : List String × List String) (p : String × NodeAttrs) :
    List String × List String :=
  llmTypeStage query (llmNameStage query entityType acc p.1 p.2.group) p.1 p.2.group

/-- `GraphSearcher.search` of `search_graph_with_llm.py`. -/
def searchLlm (G : Graph) (query : String) (entityType : Option String) : LlmResult :=
  let query := pyStrip query
  if query = "" then .emptyQuery
  else
    let acc := G.nodes.foldl (llmSearchStep query entityType) ([], [])
    if acc.1 = [] ∧ acc.2 = [] then .notFound else .found acc.1 acc.2

/-! ## Community-context ranking (`_print_node_details`, identical in
`search_graph.py` lines 102-128 and `search_graph_with_llm.py` 154-180) -/

/-- `self.G[u][v].get('weight', 1)`. -/
def weightOrOne (G : Graph) (u v : String) : Int :=
  (edgeWeight G u v).getD 1

/-- Lines 111-118: `weight = 0`, then `max` with the outgoing and the
incoming edge weight when the respective edge exists. -/
def neighborWeight (G : Graph) (nodeName neighbor : String) : Int :=
  let w0 : Int := 0
  let w1 := if hasEdge G nodeName neighbor then max w0 (weightOrOne G nodeName neighbor) else w0
  if hasEdge G neighbor nodeName then max w1 (weightOrOne G neighbor nodeName) else w1

/-- Stable insertion step for Python's `list.sort(key=lambda x: x[1],
reverse=True)`: an element goes after every strictly heavier one and
after earlier equal-weight ones. -/
def insertByWeightDesc (x : String × Int) : List (String × Int) → List (String × Int)
  | [] => [x]
  | y :: ys => if y.2 > x.2 then y :: insertByWeightDesc x ys else x :: y :: ys

/-- Python's stable descending sort by the weight component. -/
def sortByWeightDesc : List (String × Int) → List (String × Int)
  | [] => []
  | x :: xs => insertByWeightDesc x (sortByWeightDesc xs)

/-- Lines 106-127: collect the neighbours in the same community, pair each
with `neighborWeight`, sort by weight descending (stable), take 5.
`neighborOrder` is the iteration order of the Python set
`set(successors) | set(predecessors)`, which is hash-dependent and
unspecified; it is therefore a parameter. -/
def topCommunityNeighbors (G : Graph) (nodeName : String) (community : Nat)
    (neighborOrder : List String) : List (String × Int) :=
  let communityNeighbors :=
    (neighborOrder.filter (fun nb => nodeCommunity G nb == some community)).map
      (fun nb => (nb, neighborWeight G nodeName nb))
  (sortByWeightDesc communityNeighbors).take 5

/-- The neighbour set of a node: targets of outgoing plus sources of
incoming edges (`set(self.G.successors(n)) | set(self.G.predecessors(n))`),
as the deduplicated list underlying the Python set. -/
def neighborSet (G : Graph) (n : String) : List String :=
  ((G.edges.filter (fun e => e.1.1 == n)).map (fun e => e.1.2) ++
   (G.edges.filter (fun e => e.1.2 == n)).map (fun e => e.1.1)).dedup

/-! ## Snapshot Exporter (`export_graph_data`, lines 291-304) and the
Query Engine loader (`GraphSearcher.load_graph`, `search_graph.py` 21-41) -/

/-- A node entry of the `nx.node_link_data` document. -/
structure SnapNode where
  id : String
  group : String
  title : String
  description : Option String := none
  degree : Option Nat := none
  community : Option Nat := none
  communityColor : Option String := none
deriving Repr, DecidableEq

/-- A link entry of the `nx.node_link_data` document. -/
structure SnapLink where
  source : String
  target : String
  weight : Option Int := none
  description : Option String := none
  label : Option String := none
  title : Option String := none
  group : Option String := none
deriving Repr, DecidableEq

/-- The node-link snapshot (`graph_analysis_data.json`). -/
structure Snapshot where
  directed : Bool
  multigraph : Bool
  nodes : List SnapNode
  links : List SnapLink
deriving Repr, DecidableEq

/-- `nx.node_link_data(self.G)` followed by `json.dump`: every node with
all its attributes, every edge with all its attributes, in graph order. -/
def exportGraphData (G : Graph) : Snapshot :=
  { directed := true
    multigraph := false
    nodes := G.nodes.map (fun p =>
      { id := p.1, group := p.2.group, title := p.2.title,
        description := p.2.description, degree := p.2.degree,
        community := p.2.community, communityColor := p.2.communityColor })
    links := G.edges.map (fun p =>
      { source := p.1.1, target := p.1.2, weight := p.2.weight,
        description := p.2.description, label := p.2.label,
        title := p.2.title, group := p.2.group }) }

/-- Rebuild a `NodeAttrs` record from a snapshot node entry. -/
def snapNodeAttrs (n : SnapNode) : NodeAttrs :=
  { group := n.group, title := n.title, description := n.description,
    degree := n.degree, community := n.community, communityColor := n.communityColor }

/-- Rebuild an `EdgeAttrs` record from a snapshot link entry. -/
def snapLinkAttrs (l : SnapLink) : EdgeAttrs :=
  { weight := l.weight, description := l.description, label := l.label,
    title := l.title, group := l.group }

/-- `G.add_node(id, **attrs)` as performed by `nx.node_link_graph` while
rebuilding: update an existing node's attributes or append a fresh node. -/
def snapAddNode (G : Graph) (n : SnapNode) : Graph :=
  match findNode G n.id with
  | some _ => setNode G n.id (snapNodeAttrs n)
  | none => addNode G n.id (snapNodeAttrs n)

/-- `G.add_edge(source, target, **attrs)` as performed by
`nx.node_link_graph`: endpoints already added from the node list. -/
def snapAddEdge (G : Graph) (l : SnapLink) : Graph :=
  match findEdge G l.source l.target with
  | some _ => setEdge G l.source l.target (snapLinkAttrs l)
  | none => addEdge G l.source l.target (snapLinkAttrs l)

/-- `json.load` + `nx.node_link_graph(data)` (`GraphSearcher.load_graph`):
rebuild the directed graph, nodes first, then the links. -/
def loadGraph (s : Snapshot) : Graph :=
  s.links.foldl snapAddEdge (s.nodes.foldl snapAddNode emptyGraph)

/-! ## Derived notions and concrete instances used by the verification -/

/-- At most one edge per ordered (source, target) pair: the edge keys of
the association list are pairwise distinct. -/
def uniqueEdgePairs (G : Graph) : Prop :=
  (G.edges.map (·.1)).Nodup

/-- The number of stored edges whose key is the ordered pair (s, t). -/
def countEdges (G : Graph) (s t : String) : Nat :=
  (G.edges.filter (fun e => e.1 == (s, t))).length

/-- Combine two optional weight contributions (an absent weight key
contributes nothing). -/
def combineW : Option Int → Option Int → Option Int
  | none, o => o
  | some w, none => some w
  | some w, some v => some (w + v)

/-- The weight contribution of one normalized operation to the ordered pair
(s, t): the strength of an edge upsert on that pair which passes the
`if src and tgt` guard. -/
def opWeight (s t : String) : Op → Option Int
  | .upsertEntity _ _ _ => none
  | .upsertEdge u v w _ => if ¬ (u = "" ∨ v = "") ∧ u = s ∧ v = t then some w else none

/-- Total weight contribution of a list of operations to the pair (s, t). -/
def opsWeight (s t : String) : List Op → Option Int
  | [] => none
  | op :: rest => combineW (opWeight s t op) (opsWeight s t rest)

/-- Whether a normalized operation creates (or keeps) the node named `n`. -/
def opMentions (n : String) : Op → Bool
  | .upsertEntity name _ _ => name == n && !(name == "")
  | .upsertEdge u v _ _ => !(u == "" || v == "") && (u == n || v == n)

/-- A sequence of entity upserts (the entities loop of lines 191-215),
each given as (name, type, description). -/
def applyEntityUpserts (G : Graph) (ops : List (String × String × String)) : Graph :=
  ops.foldl (fun G o => processEntity G ⟨some o.1, some o.2.1, some o.2.2⟩) G

/-- Two permutations of the same edge-op multiset, and the graphs they
build (used to instantiate the commutativity theorem). -/
def c2wOps1 : List Op := [.upsertEdge "a" "b" 2 "x", .upsertEdge "a" "b" 3 "y"]

def c2wOps2 : List Op := [.upsertEdge "a" "b" 3 "y", .upsertEdge "a" "b" 2 "x"]

def c2wG1 : Graph := (applyOps emptyGraph c2wOps1).toOption.getD emptyGraph

def c2wG2 : Graph := (applyOps emptyGraph c2wOps2).toOption.getD emptyGraph

/-- An entity whose type has already become concrete ("地點"). -/
def gC3 : Graph :=
  applyEntityUpserts emptyGraph [("E", "未知", ""), ("E", "地點", "")]

/-- A node `X` with three same-community neighbours of weights 5, 5, 3. -/
def gC4 : Graph :=
  { nodes := [("X", { group := "g", title := "X", community := some 0 }),
              ("A", { group := "g", title := "A", community := some 0 }),
              ("B", { group := "g", title := "B", community := some 0 }),
              ("C", { group := "g", title := "C", community := some 0 })],
    edges := [(("X", "A"), { weight := some 5 }), (("X", "B"), { weight := some 5 }),
              (("X", "C"), { weight := some 3 })] }

/-- Two nodes, one still carrying a stale community id and colour from an
earlier successful detection run. -/
def gC5 : Graph :=
  { nodes := [("A", { group := "g", title := "A", community := some 7,
                      communityColor := some "#FF6B6B" }),
              ("B", { group := "g", title := "B" })] }

/-- A node whose type ("café") matches a query that its name does not. -/
def gC6 : Graph :=
  { nodes := [("Central", { group := "café", title := "Central" })] }

/-- A node named "Café Central". -/
def gCafe : Graph :=
  { nodes := [("Café Central", { group := "地點", title := "Café Central" })] }

/-- A small annotated graph exercising every attribute field (used to
instantiate the snapshot round-trip theorem). -/
def gC8 : Graph :=
  { nodes := [("A", { group := "人物", title := "tA", description := some "dA",
                      degree := some 2, community := some 0,
                      communityColor := some "#FF6B6B" }),
              ("B", { group := "未知", title := "tB" })],
    edges := [(("A", "B"), { weight := some 5, description := some "d",
                             label := some "l", title := some "t" })] }

/-! ## Lookup lemmas -/

theorem assocFind?_set_same {κ β : Type} [BEq κ] [LawfulBEq κ]
    (l : List (κ × β)) (k : κ) (b : β) :
    assocFind? (assocSet l k b) k = (assocFind? l k).map (fun _ => b) := by
  induction l with
  | nil => rfl
  | cons p l ih =>
      unfold assocSet assocFind? at *
      simp only [List.map_cons, List.find?_cons]
      cases hb : (p.1 == k)
      · simpa only [hb] using ih
      · simp [hb]

theorem assocFind?_set_other {κ β : Type} [BEq κ] [LawfulBEq κ]
    (l : List (κ × β)) (k k' : κ) (b : β) (h : k' ≠ k) :
    assocFind? (assocSet l k b) k' = assocFind? l k' := by
  induction l with
  | nil => rfl
  | cons p l ih =>
      unfold assocSet assocFind? at *
      simp only [List.map_cons, List.find?_cons]
      cases hb2 : (p.1 == k')
      · simpa only [hb2] using ih
      · have hp : p.1 = k' := by simpa using hb2
        have hb : (p.1 == k) = false := by
          simp only [beq_eq_false_iff_ne, ne_eq, hp]
          exact h
        simp [hb2, hb]

theorem assocFind?_append_left_none {κ β : Type} [BEq κ]
    (l l' : List (κ × β)) (k : κ) (h : assocFind? l k = none) :
    assocFind? (l ++ l') k = assocFind? l' k := by
  unfold assocFind? at *
  rw [List.find?_append]
  cases hf : List.find? (fun p => p.1 == k) l
  · simp
  · simp [hf] at h

theorem assocFind?_append_single_other {κ β : Type} [BEq κ] [LawfulBEq κ]
    (l : List (κ × β)) (k k' : κ) (b : β) (h : k' ≠ k) :
    assocFind? (l ++ [(k, b)]) k' = assocFind? l k' := by
  unfold assocFind?
  rw [List.find?_append]
  have hb : (k == k') = false := by
    simp only [beq_eq_false_iff_ne, ne_eq]
    exact fun e => h e.symm
  cases hf : List.find? (fun p => p.1 == k') l <;> simp [List.find?_cons, hb, hf]

theorem findNode_setNode_same (G : Graph) (n : String) (a : NodeAttrs) :
    findNode (setNode G n a) n = (findNode G n).map (fun _ => a) :=
  assocFind?_set_same G.nodes n a

theorem findNode_setNode_other (G : Graph) (n m : String) (a : NodeAttrs) (h : m ≠ n) :
    findNode (setNode G n a) m = findNode G m :=
  assocFind?_set_other G.nodes n m a h

theorem findNode_addNode_same (G : Graph) (n : String) (a : NodeAttrs)
    (h : findNode G n = none) : findNode (addNode G n a) n = some a := by
  unfold findNode addNode at *
  rw [assocFind?_append_left_none _ _ _ h]
  simp [assocFind?, List.find?_cons]

theorem findNode_addNode_other (G : Graph) (n m : String) (a : NodeAttrs) (h : m ≠ n) :
    findNode (addNode G n a) m = findNode G m :=
  assocFind?_append_single_other G.nodes n m a h

theorem findEdge_setEdge_same (G : Graph) (u v : String) (a : EdgeAttrs) :
    findEdge (setEdge G u v a) u v = (findEdge G u v).map (fun _ => a) :=
  assocFind?_set_same G.edges (u, v) a

theorem findEdge_setEdge_other (G : Graph) (u v s t : String) (a : EdgeAttrs)
    (h : (s, t) ≠ (u, v)) : findEdge (setEdge G u v a) s t = findEdge G s t :=
  assocFind?_set_other G.edges (u, v) (s, t) a h

theorem findEdge_addEdge_same (G : Graph) (u v : String) (a : EdgeAttrs)
    (h : findEdge G u v = none) : findEdge (addEdge G u v a) u v = some a := by
  unfold findEdge addEdge at *
  rw [assocFind?_append_left_none _ _ _ h]
  simp [assocFind?, List.find?_cons]

theorem findEdge_addEdge_other (G : Graph) (u v s t : String) (a : EdgeAttrs)
    (h : (s, t) ≠ (u, v)) : findEdge (addEdge G u v a) s t = findEdge G s t :=
  assocFind?_append_single_other G.edges (u, v) (s, t) a h

theorem findEdge_setNode (G : Graph) (n : String) (a : NodeAttrs) (u v : String) :
    findEdge (setNode G n a) u v = findEdge G u v := rfl

theorem findEdge_addNode (G : Graph) (n : String) (a : NodeAttrs) (u v : String) :
    findEdge (addNode G n a) u v = findEdge G u v := rfl

theorem findNode_setEdge (G : Graph) (u v : String) (a : EdgeAttrs) (n : String) :
    findNode (setEdge G u v a) n = findNode G n := rfl

theorem findNode_addEdge (G : Graph) (u v : String) (a : EdgeAttrs) (n : String) :
    findNode (addEdge G u v a) n = findNode G n := rfl

theorem processEntity_edges (G : Graph) (e : EntityRec) :
    (processEntity G e).edges = G.edges := by
  rw [processEntity]
  split
  · rfl
  · cases findNode G (e.entity_name.getD "") <;> rfl

theorem ensureNode_edges (G : Graph) (n : String) :
    (ensureNode G n).edges = G.edges := by
  rw [ensureNode]
  split <;> rfl

theorem edgeWeight_eq_of_edges_eq (G1 G2 : Graph) (h : G1.edges = G2.edges) (s t : String) :
    edgeWeight G1 s t = edgeWeight G2 s t := by
  unfold edgeWeight findEdge
  rw [h]

theorem hasNode_addNode_iff (G : Graph) (k : String) (a : NodeAttrs) (n : String) :
    hasNode (addNode G k a) n = true ↔ (hasNode G n = true ∨ k = n) := by
  unfold hasNode findNode addNode assocFind?
  rw [List.find?_append]
  cases hf : List.find? (fun p => p.1 == n) G.nodes <;>
    cases hb : (k == n) <;>
      simp_all [List.find?_cons]

theorem hasNode_setNode (G : Graph) (k : String) (a : NodeAttrs) (n : String) :
    hasNode (setNode G k a) n = hasNode G n := by
  unfold hasNode
  by_cases h : n = k
  · subst h
    rw [findNode_setNode_same]
    cases findNode G n <;> rfl
  · rw [findNode_setNode_other G k n a h]

theorem hasNode_ensureNode_iff (G : Graph) (k n : String) :
    hasNode (ensureNode G k) n = true ↔ (hasNode G n = true ∨ k = n) := by
  rw [ensureNode]
  split
  · constructor
    · exact fun h => Or.inl h
    · rintro (h | rfl)
      · exact h
      · assumption
  · exact hasNode_addNode_iff G k _ n

/-! ## Weight-accumulation machinery -/

theorem combineW_none_right (o : Option Int) : combineW o none = o := by
  cases o <;> rfl

theorem combineW_assoc (a b c : Option Int) :
    combineW (combineW a b) c = combineW a (combineW b c) := by
  cases a <;> cases b <;> cases c <;> simp [combineW, Int.add_assoc]

theorem combineW_comm (a b : Option Int) : combineW a b = combineW b a := by
  cases a <;> cases b <;> simp [combineW, Int.add_comm]

theorem upsertEdgeAttrs_of_found (G : Graph) (u v : String) (w : Int) (d : String)
    (edge : EdgeAttrs) (hf : findEdge G u v = some edge) :
    upsertEdgeAttrs G u v w d = mergeEdge G u v w d edge edge.weight := by
  rw [upsertEdgeAttrs, hf]

theorem upsertEdgeAttrs_of_missing (G : Graph) (u v : String) (w : Int) (d : String)
    (hf : findEdge G u v = none) :
    upsertEdgeAttrs G u v w d = .ok (newEdge G u v w d) := by
  rw [upsertEdgeAttrs, hf]

/-- The merged edge record always carries the accumulated weight, whether
or not the description branch fires. -/
theorem mergeEdge_eq (G : Graph) (u v : String) (w : Int) (d : String)
    (edge : EdgeAttrs) (w0 : Int) :
    ∃ a : EdgeAttrs, mergeEdge G u v w d edge (some w0) = .ok (setEdge G u v a) ∧
      a.weight = some (w0 + w) := by
  rw [mergeEdge]
  split
  · exact ⟨_, rfl, rfl⟩
  · exact ⟨_, rfl, rfl⟩

theorem pair_ne_of_not_and {u v s t : String} (hst : ¬ (u = s ∧ v = t)) :
    (s, t) ≠ (u, v) := by
  intro he
  rw [Prod.mk.injEq] at he
  exact hst ⟨he.1.symm, he.2.symm⟩

theorem edgeWeight_upsertEdgeAttrs (G : Graph) (u v : String) (w : Int) (d : String)
    (G' : Graph) (h : upsertEdgeAttrs G u v w d = .ok G') (s t : String) :
    edgeWeight G' s t =
      combineW (edgeWeight G s t) (if u = s ∧ v = t then some w else none) := by
  cases hf : findEdge G u v with
  | none =>
      rw [upsertEdgeAttrs_of_missing G u v w d hf] at h
      simp only [Except.ok.injEq] at h
      subst h
      by_cases hst : u = s ∧ v = t
      · obtain ⟨rfl, rfl⟩ := hst
        rw [edgeWeight, newEdge, findEdge_addEdge_same G u v _ hf]
        rw [edgeWeight, hf]
        simp [combineW]
      · rw [edgeWeight, newEdge, findEdge_addEdge_other G u v s t _ (pair_ne_of_not_and hst)]
        rw [if_neg hst, combineW_none_right]
        rfl
  | some edge =>
      rw [upsertEdgeAttrs_of_found G u v w d edge hf] at h
      cases hw : edge.weight with
      | none =>
          rw [hw, mergeEdge] at h
          exact absurd h (by simp)
      | some w0 =>
          rw [hw] at h
          obtain ⟨a, hm, ha⟩ := mergeEdge_eq G u v w d edge w0
          rw [hm] at h
          simp only [Except.ok.injEq] at h
          subst h
          by_cases hst : u = s ∧ v = t
          · obtain ⟨rfl, rfl⟩ := hst
            rw [edgeWeight, findEdge_setEdge_same, hf]
            rw [edgeWeight, hf]
            simp [ha, hw, combineW]
          · rw [edgeWeight, findEdge_setEdge_other G u v s t _ (pair_ne_of_not_and hst)]
            rw [if_neg hst, combineW_none_right]
            rfl

theorem edgeWeight_applyOp (G : Graph) (op : Op) (G' : Graph)
    (h : applyOp G op = .ok G') (s t : String) :
    edgeWeight G' s t = combineW (edgeWeight G s t) (opWeight s t op) := by
  cases op with
  | upsertEntity n ty d =>
      rw [applyOp] at h
      simp only [Except.ok.injEq] at h
      subst h
      rw [opWeight, combineW_none_right]
      exact edgeWeight_eq_of_edges_eq _ _ (processEntity_edges G _) s t
  | upsertEdge u v w d =>
      rw [applyOp, addRelationship] at h
      by_cases hg : u = "" ∨ v = ""
      · rw [if_pos hg] at h
        simp only [Except.ok.injEq] at h
        subst h
        rw [opWeight, if_neg (by simp [hg]), combineW_none_right]
      · rw [if_neg hg] at h
        have := edgeWeight_upsertEdgeAttrs _ u v w d G' h s t
        rw [this]
        have he : edgeWeight (ensureNode (ensureNode G u) v) s t = edgeWeight G s t := by
          have e1 := edgeWeight_eq_of_edges_eq _ _ (ensureNode_edges (ensureNode G u) v) s t
          have e2 := edgeWeight_eq_of_edges_eq _ _ (ensureNode_edges G u) s t
          rw [e1, e2]
        rw [he, opWeight]
        by_cases hst : u = s ∧ v = t
        · rw [if_pos hst, if_pos ⟨hg, hst⟩]
        · rw [if_neg hst, if_neg (by intro hc; exact hst hc.2)]

theorem edgeWeight_applyOps (G : Graph) (ops : List Op) (G' : Graph)
    (h : applyOps G ops = .ok G') (s t : String) :
    edgeWeight G' s t = combineW (edgeWeight G s t) (opsWeight s t ops) := by
  induction ops generalizing G with
  | nil =>
      rw [applyOps] at h
      simp only [Except.ok.injEq] at h
      subst h
      rw [opsWeight, combineW_none_right]
  | cons op rest ih =>
      rw [applyOps] at h
      cases ha : applyOp G op with
      | error e => rw [ha] at h; simp at h
      | ok Gm =>
          rw [ha] at h
          have h1 := ih Gm h
          rw [h1, edgeWeight_applyOp G op Gm ha s t, opsWeight, combineW_assoc]

theorem opsWeight_perm (s t : String) {l1 l2 : List Op} (h : List.Perm l1 l2) :
    opsWeight s t l1 = opsWeight s t l2 := by
  induction h with
  | nil => rfl
  | cons x _ ih => rw [opsWeight, opsWeight, ih]
  | swap x y l =>
      rw [opsWeight, opsWeight, opsWeight, opsWeight,
          ← combineW_assoc, ← combineW_assoc, combineW_comm (opWeight s t y) (opWeight s t x)]
  | trans _ _ ih1 ih2 => rw [ih1, ih2]

/-! ## Node-membership machinery -/

theorem nodes_upsertEdgeAttrs (G : Graph) (u v : String) (w : Int) (d : String)
    (G' : Graph) (h : upsertEdgeAttrs G u v w d = .ok G') : G'.nodes = G.nodes := by
  cases hf : findEdge G u v with
  | none =>
      rw [upsertEdgeAttrs_of_missing G u v w d hf] at h
      simp only [Except.ok.injEq] at h
      subst h
      rfl
  | some edge =>
      rw [upsertEdgeAttrs_of_found G u v w d edge hf] at h
      cases hw : edge.weight with
      | none =>
          rw [hw, mergeEdge] at h
          exact absurd h (by simp)
      | some w0 =>
          rw [hw] at h
          obtain ⟨a, hm, _⟩ := mergeEdge_eq G u v w d edge w0
          rw [hm] at h
          simp only [Except.ok.injEq] at h
          subst h
          rfl

theorem hasNode_eq_of_nodes_eq (G1 G2 : Graph) (h : G1.nodes = G2.nodes) (n : String) :
    hasNode G1 n = hasNode G2 n := by
  unfold hasNode findNode
  rw [h]

theorem hasNode_applyOp_iff (G : Graph) (op : Op) (G' : Graph)
    (h : applyOp G op = .ok G') (n : String) :
    hasNode G' n = true ↔ (hasNode G n = true ∨ opMentions n op = true) := by
  cases op with
  | upsertEntity name ty d =>
      rw [applyOp] at h
      simp only [Except.ok.injEq] at h
      subst h
      rw [processEntity]
      simp only [Option.getD_some]
      by_cases hn : name = ""
      · rw [if_pos hn]
        subst hn
        simp [opMentions]
      · rw [if_neg hn]
        cases hfind : findNode G name with
        | some node =>
            rw [hasNode_setNode]
            constructor
            · exact fun hh => Or.inl hh
            · rintro (hh | hh)
              · exact hh
              · simp only [opMentions, Bool.and_eq_true, beq_iff_eq,
                  Bool.not_eq_eq_eq_not, Bool.not_true, beq_eq_false_iff_ne] at hh
                rw [← hh.1]
                unfold hasNode
                rw [hfind]
                rfl
        | none =>
            rw [hasNode_addNode_iff]
            simp only [opMentions, Bool.and_eq_true, beq_iff_eq,
              Bool.not_eq_eq_eq_not, Bool.not_true, beq_eq_false_iff_ne]
            constructor
            · rintro (hh | hh)
              · exact Or.inl hh
              · exact Or.inr ⟨hh, hn⟩
            · rintro (hh | hh)
              · exact Or.inl hh
              · exact Or.inr hh.1
  | upsertEdge u v w d =>
      rw [applyOp, addRelationship] at h
      by_cases hg : u = "" ∨ v = ""
      · rw [if_pos hg] at h
        simp only [Except.ok.injEq] at h
        subst h
        simp only [opMentions]
        have : (!(u == "" || v == "")) = false := by
          rcases hg with hg | hg <;> simp [hg]
        rw [this]
        simp
      · rw [if_neg hg] at h
        have hn := nodes_upsertEdgeAttrs _ u v w d G' h
        rw [hasNode_eq_of_nodes_eq G' (ensureNode (ensureNode G u) v) hn n]
        rw [hasNode_ensureNode_iff, hasNode_ensureNode_iff]
        simp only [opMentions]
        have hgb : (!(u == "" || v == "")) = true := by
          simp only [not_or] at hg
          simp [hg.1, hg.2]
        rw [hgb]
        simp only [Bool.true_and, Bool.or_eq_true, beq_iff_eq]
        tauto

theorem hasNode_applyOps_iff (G : Graph) (ops : List Op) (G' : Graph)
    (h : applyOps G ops = .ok G') (n : String) :
    hasNode G' n = true ↔ (hasNode G n = true ∨ ∃ op ∈ ops, opMentions n op = true) := by
  induction ops generalizing G with
  | nil =>
      rw [applyOps] at h
      simp only [Except.ok.injEq] at h
      subst h
      simp
  | cons op rest ih =>
      rw [applyOps] at h
      cases ha : applyOp G op with
      | error e => rw [ha] at h; simp at h
      | ok Gm =>
          rw [ha] at h
          rw [ih Gm h, hasNode_applyOp_iff G op Gm ha n]
          simp only [List.mem_cons]
          constructor
          · rintro ((hh | hh) | ⟨o, ho, hho⟩)
            · exact Or.inl hh
            · exact Or.inr ⟨op, Or.inl rfl, hh⟩
            · exact Or.inr ⟨o, Or.inr ho, hho⟩
          · rintro (hh | ⟨o, (rfl | ho), hho⟩)
            · exact Or.inl (Or.inl hh)
            · exact Or.inl (Or.inr hho)
            · exact Or.inr ⟨o, ho, hho⟩

/-! ## Uniqueness of edge pairs -/

theorem assocSet_keys {κ β : Type} [BEq κ] (l : List (κ × β)) (k : κ) (b : β) :
    (assocSet l k b).map (·.1) = l.map (·.1) := by
  simp [assocSet, List.map_map]

theorem not_mem_keys_of_assocFind?_none {κ β : Type} [BEq κ] [LawfulBEq κ]
    (l : List (κ × β)) (k : κ) (h : assocFind? l k = none) : k ∉ l.map (·.1) := by
  induction l with
  | nil => simp
  | cons p l ih =>
      unfold assocFind? at h ih
      rw [List.find?_cons] at h
      cases hb : (p.1 == k)
      · rw [hb] at h
        simp only [List.map_cons, List.mem_cons]
        rintro (he | he)
        · rw [he] at hb
          simp at hb
        · exact ih h he
      · rw [hb] at h
        simp at h

theorem uniqueEdgePairs_setEdge (G : Graph) (u v : String) (a : EdgeAttrs)
    (h : uniqueEdgePairs G) : uniqueEdgePairs (setEdge G u v a) := by
  unfold uniqueEdgePairs setEdge at *
  rw [assocSet_keys]
  exact h

theorem uniqueEdgePairs_addEdge (G : Graph) (u v : String) (a : EdgeAttrs)
    (hf : findEdge G u v = none) (h : uniqueEdgePairs G) :
    uniqueEdgePairs (addEdge G u v a) := by
  unfold uniqueEdgePairs addEdge at *
  have hnm := not_mem_keys_of_assocFind?_none G.edges (u, v) hf
  simp only [List.map_append, List.map_cons, List.map_nil]
  rw [List.nodup_append]
  refine ⟨h, List.nodup_singleton _, ?_⟩
  intro x hx hmem
  rw [List.mem_singleton] at hmem
  subst hmem
  exact hnm hx

theorem uniqueEdgePairs_upsertEdgeAttrs (G : Graph) (u v : String) (w : Int) (d : String)
    (G' : Graph) (h : upsertEdgeAttrs G u v w d = .ok G')
    (hu : uniqueEdgePairs G) : uniqueEdgePairs G' := by
  cases hf : findEdge G u v with
  | none =>
      rw [upsertEdgeAttrs_of_missing G u v w d hf] at h
      simp only [Except.ok.injEq] at h
      subst h
      exact uniqueEdgePairs_addEdge G u v _ hf hu
  | some edge =>
      rw [upsertEdgeAttrs_of_found G u v w d edge hf] at h
      cases hw : edge.weight with
      | none =>
          rw [hw, mergeEdge] at h
          exact absurd h (by simp)
      | some w0 =>
          rw [hw] at h
          obtain ⟨a, hm, _⟩ := mergeEdge_eq G u v w d edge w0
          rw [hm] at h
          simp only [Except.ok.injEq] at h
          subst h
          exact uniqueEdgePairs_setEdge G u v a hu

theorem uniqueEdgePairs_of_edges_eq (G1 G2 : Graph) (h : G1.edges = G2.edges)
    (hu : uniqueEdgePairs G2) : uniqueEdgePairs G1 := by
  unfold uniqueEdgePairs at *
  rw [h]
  exact hu

theorem uniqueEdgePairs_applyOp (G : Graph) (op : Op) (G' : Graph)
    (h : applyOp G op = .ok G') (hu : uniqueEdgePairs G) : uniqueEdgePairs G' := by
  cases op with
  | upsertEntity n ty d =>
      rw [applyOp] at h
      simp only [Except.ok.injEq] at h
      subst h
      exact uniqueEdgePairs_of_edges_eq _ G (processEntity_edges G _) hu
  | upsertEdge u v w d =>
      rw [applyOp, addRelationship] at h
      by_cases hg : u = "" ∨ v = ""
      · rw [if_pos hg] at h
        simp only [Except.ok.injEq] at h
        subst h
        exact hu
      · rw [if_neg hg] at h
        refine uniqueEdgePairs_upsertEdgeAttrs _ u v w d G' h ?_
        refine uniqueEdgePairs_of_edges_eq _ G ?_ hu
        rw [ensureNode_edges, ensureNode_edges]

theorem uniqueEdgePairs_legacyAddNode (G : Graph) (n grp ttl : String)
    (hu : uniqueEdgePairs G) : uniqueEdgePairs (legacyAddNode G n grp ttl) := by
  refine uniqueEdgePairs_of_edges_eq _ G ?_ hu
  rw [legacyAddNode]
  cases findNode G n <;> rfl

theorem uniqueEdgePairs_legacyAddEdge (G : Graph) (u v rel cat : String)
    (hu : uniqueEdgePairs G) : uniqueEdgePairs (legacyAddEdge G u v rel cat) := by
  rw [legacyAddEdge]
  cases hf : findEdge G u v with
  | some a => exact uniqueEdgePairs_setEdge G u v _ hu
  | none => exact uniqueEdgePairs_addEdge G u v _ hf hu

theorem uniqueEdgePairs_processTriple (G : Graph) (t : List String)
    (hu : uniqueEdgePairs G) : uniqueEdgePairs (processTriple G t) := by
  match t with
  | [] => exact hu
  | [_] => exact hu
  | [_, _] => exact hu
  | subj :: rel :: obj :: rest =>
      exact uniqueEdgePairs_legacyAddEdge _ _ _ _ _
        (uniqueEdgePairs_legacyAddNode _ _ _ _
          (uniqueEdgePairs_legacyAddNode _ _ _ _ hu))

theorem uniqueEdgePairs_foldl_processTriple (ts : List (List String)) (G0 : Graph)
    (h : uniqueEdgePairs G0) : uniqueEdgePairs (ts.foldl processTriple G0) := by
  induction ts generalizing G0 with
  | nil => exact h
  | cons t rest ih =>
      rw [List.foldl_cons]
      exact ih _ (uniqueEdgePairs_processTriple G0 t h)

theorem uniqueEdgePairs_processEvent (G : Graph) (name : String) (ts : List (List String))
    (hu : uniqueEdgePairs G) : uniqueEdgePairs (processEvent G name ts) := by
  rw [processEvent]
  refine uniqueEdgePairs_foldl_processTriple ts _ ?_
  split
  · exact uniqueEdgePairs_legacyAddNode _ _ _ _ hu
  · exact hu

theorem filter_key_length_le_one {κ β : Type} [BEq κ] [LawfulBEq κ]
    (l : List (κ × β)) (k : κ) (h : (l.map (·.1)).Nodup) :
    (l.filter (fun e => e.1 == k)).length ≤ 1 := by
  induction l with
  | nil => simp
  | cons e l ih =>
      rw [List.map_cons, List.nodup_cons] at h
      rw [List.filter_cons]
      cases hb : (e.1 == k)
      · simpa [hb] using ih h.2
      · have he : e.1 = k := by simpa using hb
        have hnil : List.filter (fun e => e.1 == k) l = [] := by
          rw [List.filter_eq_nil_iff]
          intro x hx hbx
          have hxk : x.1 = k := by simpa using hbx
          exact h.1 (by
            rw [he, ← hxk]
            exact List.mem_map_of_mem (·.1) hx)
        simp [hb, hnil]

theorem countEdges_le_one_of_unique (G : Graph) (s t : String)
    (h : uniqueEdgePairs G) : countEdges G s t ≤ 1 :=
  filter_key_length_le_one G.edges (s, t) h

/-- The legacy `add_edge` never touches the `weight` key: for every pair the
stored weight attribute is unchanged (it stays absent on a fresh edge). -/
theorem edgeWeight_legacyAddEdge (G : Graph) (u v rel cat s t : String) :
    edgeWeight (legacyAddEdge G u v rel cat) s t = edgeWeight G s t := by
  rw [legacyAddEdge]
  cases hf : findEdge G u v with
  | some a =>
      by_cases hst : s = u ∧ t = v
      · obtain ⟨rfl, rfl⟩ := hst
        rw [edgeWeight, findEdge_setEdge_same, hf, edgeWeight, hf]
        rfl
      · rw [edgeWeight, findEdge_setEdge_other G u v s t _ (by
          intro he
          rw [Prod.mk.injEq] at he
          exact hst he), edgeWeight]
  | none =>
      by_cases hst : s = u ∧ t = v
      · obtain ⟨rfl, rfl⟩ := hst
        rw [edgeWeight, findEdge_addEdge_same G s t _ hf, edgeWeight, hf]
        rfl
      · rw [edgeWeight, findEdge_addEdge_other G u v s t _ (by
          intro he
          rw [Prod.mk.injEq] at he
          exact hst he), edgeWeight]

/-! ## Claim C1 -/

/-- C1 counterexample: processing the same legacy triple `["A","r","B"]`
twice leaves a single edge for the pair ("A","B") whose `weight`
attribute is absent — the legacy events path does not accumulate (or even
set) any weight, contradicting the claim that strength accumulation
"holds for both input shapes, including the legacy events/triples path"
(which would require a stored weight of 2 here). -/
theorem c1_counterexample :
    countEdges (processEvent emptyGraph "" [["A", "r", "B"], ["A", "r", "B"]]) "A" "B" = 1 ∧
    edgeWeight (processEvent emptyGraph "" [["A", "r", "B"], ["A", "r", "B"]]) "A" "B" = none := by
  constructor
  · decide
  · decide

/-- C1 (amended): for every ordered pair the built graph holds at most one
edge (both for normalized operations and for the legacy events path), and
on the entities/relationships shape an edge operation on an existing pair
adds its strength to the existing weight — ingesting (source, target) with
strengths 2 and 3 yields a single edge of weight 5.  The legacy
events/triples path never sets or changes a `weight` attribute, so no
accumulation happens there. -/
theorem c1_weight_accumulation :
    (∀ G op G', applyOp G op = .ok G' → uniqueEdgePairs G → uniqueEdgePairs G') ∧
    (∀ G name ts, uniqueEdgePairs G → uniqueEdgePairs (processEvent G name ts)) ∧
    (∀ G s t, uniqueEdgePairs G → countEdges G s t ≤ 1) ∧
    (applyOps emptyGraph [.upsertEdge "A" "B" 2 "d1", .upsertEdge "A" "B" 3 "d2"]).map
        (fun G => (edgeWeight G "A" "B", countEdges G "A" "B")) = .ok (some 5, 1) ∧
    (∀ G u v rel cat s t, edgeWeight (legacyAddEdge G u v rel cat) s t = edgeWeight G s t) := by
  refine ⟨?_, ?_, ?_, ?_, ?_⟩
  · exact fun G op G' h hu => uniqueEdgePairs_applyOp G op G' h hu
  · exact fun G name ts hu => uniqueEdgePairs_processEvent G name ts hu
  · exact fun G s t hu => countEdges_le_one_of_unique G s t hu
  · rfl
  · exact fun G u v rel cat s t => edgeWeight_legacyAddEdge G u v rel cat s t

/-- Witness for `c1_weight_accumulation`: its hypotheses are satisfiable —
instantiated on the doubly-ingested legacy event and on a concrete graph. -/
theorem c1_weight_accumulation_witness :
    uniqueEdgePairs (processEvent emptyGraph "" [["A", "r", "B"], ["A", "r", "B"]]) ∧
    countEdges gC4 "X" "A" ≤ 1 := by
  constructor
  · exact c1_weight_accumulation.2.1 emptyGraph "" [["A", "r", "B"], ["A", "r", "B"]]
      (by unfold uniqueEdgePairs; decide)
  · exact c1_weight_accumulation.2.2.1 gC4 "X" "A" (by unfold uniqueEdgePairs; decide)

/-! ## Claim C2 -/

/-- C2 counterexample: two permutations of the same two-element multiset of
normalized entity upserts produce graphs that differ in the entity's type
(the first concrete type wins, so "甲"-then-"乙" keeps "甲" while the
reverse order keeps "乙"), and two permutations of overlapping-description
upserts differ in the retained description fragments ("a" then "ab" keeps
both, "ab" then "a" keeps only "ab") — so the result does depend on the
order of application. -/
theorem c2_counterexample :
    List.Perm [Op.upsertEntity "X" "甲" "", Op.upsertEntity "X" "乙" ""]
      [Op.upsertEntity "X" "乙" "", Op.upsertEntity "X" "甲" ""] ∧
    (applyOps emptyGraph [Op.upsertEntity "X" "甲" "", Op.upsertEntity "X" "乙" ""]).map
      (fun G => nodeGroup G "X") = .ok (some "甲") ∧
    (applyOps emptyGraph [Op.upsertEntity "X" "乙" "", Op.upsertEntity "X" "甲" ""]).map
      (fun G => nodeGroup G "X") = .ok (some "乙") ∧
    (applyOps emptyGraph [Op.upsertEntity "Y" "t" "a", Op.upsertEntity "Y" "t" "ab"]).map
      (fun G => nodeDescription G "Y") = .ok (some "a\n• ab") ∧
    (applyOps emptyGraph [Op.upsertEntity "Y" "t" "ab", Op.upsertEntity "Y" "t" "a"]).map
      (fun G => nodeDescription G "Y") = .ok (some "ab") :=
  ⟨List.Perm.swap (Op.upsertEntity "X" "乙" "") (Op.upsertEntity "X" "甲" "") [],
   rfl, rfl, rfl, rfl⟩

/-- C2 (amended): for any permutation of a fixed multiset of normalized
upsert operations applied to the empty graph, the resulting graphs agree
on the node set and on the accumulated weight of every ordered edge pair;
entity types and description fragments, however, may depend on the order
(when an entity receives two distinct concrete types, or one incoming
description fragment is a substring of another). -/
theorem c2_merge_commutativity (ops1 ops2 : List Op) (hperm : List.Perm ops1 ops2)
    (G1 G2 : Graph) (h1 : applyOps emptyGraph ops1 = .ok G1)
    (h2 : applyOps emptyGraph ops2 = .ok G2) :
    (∀ s t, edgeWeight G1 s t = edgeWeight G2 s t) ∧
    (∀ n, hasNode G1 n = hasNode G2 n) := by
  constructor
  · intro s t
    rw [edgeWeight_applyOps _ _ _ h1 s t, edgeWeight_applyOps _ _ _ h2 s t]
    have he : edgeWeight emptyGraph s t = none := rfl
    rw [he]
    show combineW none _ = combineW none _
    rw [combineW, combineW, opsWeight_perm s t hperm]
  · intro n
    have i1 := hasNode_applyOps_iff _ _ _ h1 n
    have i2 := hasNode_applyOps_iff _ _ _ h2 n
    have hmem : (∃ op ∈ ops1, opMentions n op = true) ↔
        (∃ op ∈ ops2, opMentions n op = true) := by
      constructor <;> rintro ⟨op, ho, hm⟩
      · exact ⟨op, hperm.mem_iff.mp ho, hm⟩
      · exact ⟨op, hperm.mem_iff.mpr ho, hm⟩
    have hempty : hasNode emptyGraph n = false := rfl
    rw [hempty] at i1 i2
    simp only [Bool.false_eq_true, false_or] at i1 i2
    cases hb1 : hasNode G1 n <;> cases hb2 : hasNode G2 n
    · rfl
    · rw [hb1] at i1
      rw [hb2] at i2
      exact absurd (i1.mpr (hmem.mpr (i2.mp rfl))) (by simp)
    · rw [hb1] at i1
      rw [hb2] at i2
      exact absurd (i2.mpr (hmem.mp (i1.mp rfl))) (by simp)
    · rfl

/-- Witness for `c2_merge_commutativity`: instantiated on the two concrete
permutations `c2wOps1` / `c2wOps2` of the same edge-op multiset. -/
theorem c2_merge_commutativity_witness :
    edgeWeight c2wG1 "a" "b" = edgeWeight c2wG2 "a" "b" := by
  refine (c2_merge_commutativity c2wOps1 c2wOps2 ?_ c2wG1 c2wG2 rfl rfl).1 "a" "b"
  unfold c2wOps1 c2wOps2
  exact List.Perm.swap (Op.upsertEdge "a" "b" 3 "y") (Op.upsertEdge "a" "b" 2 "x") []

/-! ## Claim C3 -/

theorem nodeGroup_processEntity_stable (G : Graph) (e : EntityRec) (n g : String)
    (hg : nodeGroup G n = some g) (hne : g ≠ "未知") :
    nodeGroup (processEntity G e) n = some g := by
  rw [processEntity]
  by_cases hn : e.entity_name.getD "" = ""
  · rw [if_pos hn]
    exact hg
  · rw [if_neg hn]
    cases hfind : findNode G (e.entity_name.getD "") with
    | none =>
        by_cases heq : n = e.entity_name.getD ""
        · rw [heq] at hg
          unfold nodeGroup at hg
          rw [hfind] at hg
          simp at hg
        · rw [nodeGroup, findNode_addNode_other G _ n _ heq]
          exact hg
    | some node =>
        by_cases heq : n = e.entity_name.getD ""
        · rw [heq] at hg ⊢
          unfold nodeGroup at hg
          rw [hfind] at hg
          simp only [Option.map, Option.some.injEq] at hg
          rw [nodeGroup, findNode_setNode_same, hfind]
          simp only [Option.map, Option.some.injEq]
          have h1 : ¬ (node.group = "未知" ∧ (e.entity_type.getD "未知") ≠ "未知") := by
            rintro ⟨hcon, _⟩
            rw [hg] at hcon
            exact hne hcon
          rw [if_neg h1]
          split <;> simp [hg]
        · rw [nodeGroup, findNode_setNode_other G _ n _ heq]
          exact hg

/-- C3: a node's type only transitions away from "未知" (the source's
"unknown"): once an entity's type is a concrete value it survives every
further sequence of entity upserts unchanged; in particular "未知" then
"地點" then "物品" ends with "地點" (first non-unknown type wins). -/
theorem c3_type_stability :
    (∀ G ops n g, nodeGroup G n = some g → g ≠ "未知" →
        nodeGroup (applyEntityUpserts G ops) n = some g) ∧
    nodeGroup (applyEntityUpserts emptyGraph
        [("E", "未知", ""), ("E", "地點", ""), ("E", "物品", "")]) "E" = some "地點" := by
  constructor
  · intro G ops n g hg hne
    induction ops generalizing G with
    | nil => exact hg
    | cons o rest ih => exact ih _ (nodeGroup_processEntity_stable G _ n g hg hne)
  · decide

/-- Witness for `c3_type_stability`: the invariant applied to the concrete
graph `gC3` (type already "地點") and one further upsert with type "物品". -/
theorem c3_type_stability_witness :
    nodeGroup (applyEntityUpserts gC3 [("E", "物品", "z")]) "E" = some "地點" :=
  c3_type_stability.1 gC3 [("E", "物品", "z")] "E" "地點" (by decide) (by decide)

/-! ## Claim C4 -/

theorem mem_insertByWeightDesc (x z : String × Int) (l : List (String × Int)) :
    z ∈ insertByWeightDesc x l ↔ z = x ∨ z ∈ l := by
  induction l with
  | nil => simp [insertByWeightDesc]
  | cons y ys ih =>
      rw [insertByWeightDesc]
      split
      · simp only [List.mem_cons, ih]
        tauto
      · simp only [List.mem_cons]

theorem pairwise_insertByWeightDesc (x : String × Int) (l : List (String × Int))
    (h : l.Pairwise (fun a b : String × Int => b.2 ≤ a.2)) :
    (insertByWeightDesc x l).Pairwise (fun a b : String × Int => b.2 ≤ a.2) := by
  induction l with
  | nil => simp [insertByWeightDesc]
  | cons y ys ih =>
      rw [List.pairwise_cons] at h
      rw [insertByWeightDesc]
      split
      · rw [List.pairwise_cons]
        refine ⟨?_, ih h.2⟩
        intro z hz
        rw [mem_insertByWeightDesc] at hz
        rcases hz with rfl | hz
        · omega
        · exact h.1 z hz
      · rw [List.pairwise_cons]
        refine ⟨?_, List.pairwise_cons.mpr h⟩
        intro z hz
        rw [List.mem_cons] at hz
        rcases hz with rfl | hz
        · omega
        · have := h.1 z hz
          omega

theorem pairwise_sortByWeightDesc (l : List (String × Int)) :
    (sortByWeightDesc l).Pairwise (fun a b : String × Int => b.2 ≤ a.2) := by
  induction l with
  | nil => exact List.Pairwise.nil
  | cons x xs ih => exact pairwise_insertByWeightDesc x _ ih

/-- C4 counterexample: in `gC4`, node "X" (community 0) has the
same-community neighbour set {"A","B","C"} with max-weights 5, 5, 3.  The
Python iteration order of that set is hash-dependent; for the legitimate
enumeration ["B","A","C"] the ranked top-5 list is
[("B",5),("A",5),("C",3)] — the two weight-5 neighbours appear in
enumeration order with "B" before "A", even though "A" < "B", so ties are
not broken by name ascending. -/
theorem c4_counterexample :
    nodeCommunity gC4 "X" = some 0 ∧
    List.Perm ["B", "A", "C"] (neighborSet gC4 "X") ∧
    topCommunityNeighbors gC4 "X" 0 ["B", "A", "C"] = [("B", 5), ("A", 5), ("C", 3)] ∧
    pyStrLt "A".data "B".data = true := by
  refine ⟨by decide, ?_, by decide, by decide⟩
  have hns : neighborSet gC4 "X" = ["A", "B", "C"] := by decide
  rw [hns]
  exact List.Perm.swap "A" "B" ["C"]

/-- C4 (amended): the community-context top-5 neighbours are ranked by
`max(outgoing weight, incoming weight)` descending via a stable sort; the
relative order of equal-weight neighbours is the (unspecified,
hash-dependent) iteration order of the neighbour set, not name ascending —
the two weight-5 neighbours of `gC4` come out in whichever order the set
enumerated them. -/
theorem c4_ranking_tiebreak :
    (∀ G nodeName community order,
        (topCommunityNeighbors G nodeName community order).Pairwise
          (fun a b : String × Int => b.2 ≤ a.2)) ∧
    topCommunityNeighbors gC4 "X" 0 ["B", "A", "C"] = [("B", 5), ("A", 5), ("C", 3)] ∧
    topCommunityNeighbors gC4 "X" 0 ["A", "B", "C"] = [("A", 5), ("B", 5), ("C", 3)] := by
  refine ⟨?_, by decide, by decide⟩
  intro G nodeName community order
  rw [topCommunityNeighbors]
  exact (pairwise_sortByWeightDesc _).sublist (List.take_sublist 5 _)

/-! ## Claim C5 -/

theorem findNode_louvainFallback (G : Graph) (n : String) :
    findNode (louvainFallback G) n =
      (findNode G n).map (fun a => { a with communityColor := none }) := by
  unfold louvainFallback findNode assocFind?
  induction G.nodes with
  | nil => rfl
  | cons p l ih =>
      simp only [List.map_cons, List.find?_cons]
      cases hb : (p.1 == n)
      · simpa only [hb] using ih
      · simp [hb]

/-- C5 counterexample: on an internal Louvain error the fallback does not
assign singleton communities — in `gC5` node "B" ends with no community id
at all and node "A" keeps its stale id 7 from the previous run, so the
nodes are not each given a distinct fresh community id. -/
theorem c5_counterexample :
    nodeCommunity (applyLouvainCommunities gC5 (.error "networkx failure")) "B" = none ∧
    nodeCommunity (applyLouvainCommunities gC5 (.error "networkx failure")) "A" = some 7 := by
  exact ⟨by decide, by decide⟩

/-- C5 (amended): community detection never aborts the pipeline on an
internal error — the exception is caught and the graph survives: every
residual `community_color` attribute is deleted, while edges, node order
and all other node attributes (including any previously assigned
`community` id) are left unchanged.  No singleton partition is assigned. -/
theorem c5_detection_fallback :
    (∀ G e, applyLouvainCommunities G (.error e) = louvainFallback G) ∧
    (∀ G n, findNode (louvainFallback G) n =
        (findNode G n).map (fun a => { a with communityColor := none })) ∧
    (∀ G n, nodeCommunity (louvainFallback G) n = nodeCommunity G n) ∧
    (∀ G e, (applyLouvainCommunities G (.error e)).edges = G.edges) := by
  refine ⟨fun G e => rfl, findNode_louvainFallback, ?_, fun G e => rfl⟩
  intro G n
  rw [nodeCommunity, findNode_louvainFallback, nodeCommunity]
  cases findNode G n <;> rfl

/-! ## Claim C9 -/

theorem hasNode_assignNode (i : Nat) (G : Graph) (x n : String) :
    hasNode (assignNode i G x) n = hasNode G n := by
  rw [assignNode]
  cases hfx : findNode G x with
  | none => rfl
  | some a => exact hasNode_setNode G x _ n

theorem nodeCommunity_assignNode_other (i : Nat) (G : Graph) (x n : String)
    (hne : n ≠ x) : nodeCommunity (assignNode i G x) n = nodeCommunity G n := by
  rw [assignNode]
  cases hfx : findNode G x with
  | none => rfl
  | some a => rw [nodeCommunity, findNode_setNode_other G x n _ hne, nodeCommunity]

theorem nodeCommunity_assignNode_self (i : Nat) (G : Graph) (n : String)
    (hhas : hasNode G n = true) : nodeCommunity (assignNode i G n) n = some i := by
  rw [assignNode]
  cases hfx : findNode G n with
  | none =>
      unfold hasNode at hhas
      rw [hfx] at hhas
      simp at hhas
  | some a =>
      rw [nodeCommunity, findNode_setNode_same, hfx]
      rfl

theorem hasNode_assignCommunity (G : Graph) (c : List String) (i : Nat) (n : String) :
    hasNode (assignCommunity G c i) n = hasNode G n := by
  rw [assignCommunity]
  induction c generalizing G with
  | nil => rfl
  | cons x rest ih =>
      rw [List.foldl_cons, ih, hasNode_assignNode]

theorem nodeCommunity_assignCommunity_not_mem (G : Graph) (c : List String) (i : Nat)
    (n : String) (hn : n ∉ c) :
    nodeCommunity (assignCommunity G c i) n = nodeCommunity G n := by
  rw [assignCommunity]
  induction c generalizing G with
  | nil => rfl
  | cons x rest ih =>
      rw [List.mem_cons] at hn
      push_neg at hn
      rw [List.foldl_cons, ih _ hn.2, nodeCommunity_assignNode_other i G x n hn.1]

theorem nodeCommunity_assignCommunity_mem (G : Graph) (c : List String) (i : Nat)
    (n : String) (hn : n ∈ c) (hhas : hasNode G n = true) :
    nodeCommunity (assignCommunity G c i) n = some i := by
  rw [assignCommunity]
  induction c generalizing G with
  | nil => simp at hn
  | cons x rest ih =>
      rw [List.foldl_cons]
      by_cases hr : n ∈ rest
      · refine ih _ hr ?_
        rw [hasNode_assignNode]
        exact hhas
      · have hx : n = x := by
          rcases List.mem_cons.mp hn with h | h
          · exact h
          · exact absurd h hr
        subst hx
        have hrest : nodeCommunity (List.foldl (assignNode i) (assignNode i G n) rest) n
            = nodeCommunity (assignNode i G n) n :=
          nodeCommunity_assignCommunity_not_mem (assignNode i G n) rest i n hr
        rw [hrest, nodeCommunity_assignNode_self i G n hhas]

theorem hasNode_assignCommunitiesFrom (G : Graph) (b : Nat) (cs : List (List String))
    (n : String) : hasNode (assignCommunitiesFrom G b cs) n = hasNode G n := by
  induction cs generalizing G b with
  | nil => rfl
  | cons c rest ih =>
      rw [assignCommunitiesFrom, ih, hasNode_assignCommunity]

theorem nodeCommunity_assignCommunitiesFrom_not_mem (G : Graph) (b : Nat)
    (cs : List (List String)) (n : String) (hn : n ∉ cs.flatten) :
    nodeCommunity (assignCommunitiesFrom G b cs) n = nodeCommunity G n := by
  induction cs generalizing G b with
  | nil => rfl
  | cons c rest ih =>
      rw [List.flatten_cons, List.mem_append] at hn
      push_neg at hn
      rw [assignCommunitiesFrom, ih _ _ hn.2,
          nodeCommunity_assignCommunity_not_mem G c b n hn.1]

theorem nodeCommunity_assignCommunitiesFrom_mem (cs : List (List String)) (G : Graph)
    (b i : Nat) (n : String) (hhas : hasNode G n = true) (hi : i < cs.length)
    (hmem : n ∈ cs.getD i [])
    (huniq : ∀ j, j < cs.length → n ∈ cs.getD j [] → j = i) :
    nodeCommunity (assignCommunitiesFrom G b cs) n = some (b + i) := by
  induction cs generalizing G b i with
  | nil => simp at hi
  | cons c rest ih =>
      rw [assignCommunitiesFrom]
      by_cases h0 : n ∈ c
      · have hi0 : (0 : Nat) = i := huniq 0 (Nat.succ_pos _) (by simpa using h0)
        subst hi0
        have hnr : n ∉ rest.flatten := by
          intro hj
          obtain ⟨l, hl, hnl⟩ := List.mem_flatten.mp hj
          obtain ⟨k, hk, rfl⟩ := List.mem_iff_getElem.mp hl
          have : k + 1 = 0 := huniq (k + 1) (by simpa using hk) (by
            rw [List.getD_cons_succ, List.getD_eq_getElem rest [] hk]
            exact hnl)
          simp at this
        rw [nodeCommunity_assignCommunitiesFrom_not_mem _ _ _ _ hnr,
            nodeCommunity_assignCommunity_mem G c b n h0 hhas]
        simp
      · cases i with
        | zero =>
            rw [List.getD_cons_zero] at hmem
            exact absurd hmem h0
        | succ k =>
            have hres := ih (assignCommunity G c b) (b + 1) k
              (by rw [hasNode_assignCommunity]; exact hhas)
              (by simpa using hi)
              (by simpa using hmem)
              (fun j hj hnj => by
                have := huniq (j + 1) (by simpa using hj) (by simpa using hnj)
                omega)
            rw [hres]
            congr 1
            omega

theorem exists_mem_nodes_of_hasNode (G : Graph) (n : String) (h : hasNode G n = true) :
    ∃ p ∈ G.nodes, p.1 = n := by
  unfold hasNode findNode assocFind? at h
  cases hf : List.find? (fun p => p.1 == n) G.nodes with
  | none =>
      rw [hf] at h
      simp at h
  | some p =>
      refine ⟨p, List.mem_of_find?_eq_some hf, ?_⟩
      have := List.find?_some hf
      simpa using this

/-- C9: after a successful community-detection run on a partition of the
node set (`nx.community.louvain_communities` returns a list of disjoint
communities covering every node), the assignment is total — every node of
the graph carries a community id — and it is exactly one id: the index of
the node's unique community; any previously stored community id is
overwritten (the partition is recomputed from scratch). -/
theorem c9_partition_totality (G : Graph) (cs : List (List String))
    (hdisj : cs.flatten.Nodup) (hcover : ∀ p ∈ G.nodes, p.1 ∈ cs.flatten) :
    (∀ n, hasNode G n = true →
        (nodeCommunity (applyLouvainCommunities G (.ok cs)) n).isSome = true) ∧
    (∀ n i, i < cs.length → n ∈ cs.getD i [] → hasNode G n = true →
        nodeCommunity (applyLouvainCommunities G (.ok cs)) n = some i ∧
        ∀ j, j < cs.length → n ∈ cs.getD j [] → j = i) := by
  have hmain : ∀ n i, i < cs.length → n ∈ cs.getD i [] → hasNode G n = true →
      nodeCommunity (applyLouvainCommunities G (.ok cs)) n = some i ∧
      ∀ j, j < cs.length → n ∈ cs.getD j [] → j = i := by
    intro n i hi hmem hhas
    have huniq : ∀ j, j < cs.length → n ∈ cs.getD j [] → j = i := by
      intro j hj hnj
      by_contra hne
      rw [List.nodup_flatten] at hdisj
      rcases Nat.lt_or_ge j i with hlt | hge
      · have hdis := (List.pairwise_iff_getElem.mp hdisj.2) j i hj hi hlt
        rw [List.getD_eq_getElem cs [] hj] at hnj
        rw [List.getD_eq_getElem cs [] hi] at hmem
        exact hdis hnj hmem
      · have hlt2 : i < j := Nat.lt_of_le_of_ne hge (fun e => hne e.symm)
        have hdis := (List.pairwise_iff_getElem.mp hdisj.2) i j hi hj hlt2
        rw [List.getD_eq_getElem cs [] hj] at hnj
        rw [List.getD_eq_getElem cs [] hi] at hmem
        exact hdis hmem hnj
    refine ⟨?_, huniq⟩
    have := nodeCommunity_assignCommunitiesFrom_mem cs G 0 i n hhas hi hmem huniq
    rw [applyLouvainCommunities, this]
    simp
  refine ⟨?_, hmain⟩
  intro n hn
  obtain ⟨p, hp, rfl⟩ := exists_mem_nodes_of_hasNode G n hn
  obtain ⟨l, hl, hnl⟩ := List.mem_flatten.mp (hcover p hp)
  obtain ⟨k, hk, rfl⟩ := List.mem_iff_getElem.mp hl
  have hres := hmain p.1 k hk (by
    rw [List.getD_eq_getElem cs [] hk]
    exact hnl) hn
  rw [hres.1]
  rfl

/-- Witness for `c9_partition_totality`: node "A" of `gC5` is assigned
community id 1 by the partition `[["B"], ["A"]]`. -/
theorem c9_partition_totality_witness :
    nodeCommunity (applyLouvainCommunities gC5 (.ok [["B"], ["A"]])) "A" = some 1 :=
  ((c9_partition_totality gC5 [["B"], ["A"]] (by decide) (by decide)).2
    "A" 1 (by decide) (by decide) (by decide)).1

/-! ## Claims C6 and C10: search -/

theorem llmTypeStage_fst (q : String) (acc1 : List String × List String)
    (name group : String) : (llmTypeStage q acc1 name group).1 = acc1.1 := by
  rw [llmTypeStage]
  split
  · split <;> rfl
  · rfl

theorem llmNameStage_fst_ext (q : String) (et : Option String)
    (acc : List String × List String) (name group : String) :
    ∃ d, (llmNameStage q et acc name group).1 = acc.1 ++ d := by
  rw [llmNameStage.eq_def]
  split
  · cases et with
    | none => exact ⟨[name], rfl⟩
    | some t =>
        dsimp only
        by_cases h1 : t ≠ "" ∧ t ≠ "Unknown"
        · rw [if_pos h1]
          by_cases h2 : pyIn (pyLower t) (pyLower group) = true ∨
              pyIn (pyLower group) (pyLower t) = true
          · rw [if_pos h2]
            exact ⟨[name], rfl⟩
          · rw [if_neg h2]
            exact ⟨[], by simp⟩
        · rw [if_neg h1]
          exact ⟨[name], rfl⟩
  · exact ⟨[], by simp⟩

theorem llmNameStage_snd (q : String) (et : Option String)
    (acc : List String × List String) (name group : String) :
    (llmNameStage q et acc name group).2 = acc.2 := by
  rw [llmNameStage.eq_def]
  split
  · cases et with
    | none => rfl
    | some t =>
        dsimp only
        by_cases h1 : t ≠ "" ∧ t ≠ "Unknown"
        · rw [if_pos h1]
          by_cases h2 : pyIn (pyLower t) (pyLower group) = true ∨
              pyIn (pyLower group) (pyLower t) = true
          · rw [if_pos h2]
          · rw [if_neg h2]
        · rw [if_neg h1]
  · rfl

theorem llmTypeStage_snd_ext (q : String) (acc1 : List String × List String)
    (name group : String) : ∃ d, (llmTypeStage q acc1 name group).2 = acc1.2 ++ d := by
  rw [llmTypeStage]
  split
  · split
    · exact ⟨[name], rfl⟩
    · exact ⟨[], by simp⟩
  · exact ⟨[], by simp⟩

theorem llmSearchStep_fst_ext (q : String) (et : Option String)
    (acc : List String × List String) (p : String × NodeAttrs) :
    ∃ d, (llmSearchStep q et acc p).1 = acc.1 ++ d := by
  rw [llmSearchStep, llmTypeStage_fst]
  exact llmNameStage_fst_ext q et acc p.1 p.2.group

theorem llmSearchStep_snd_ext (q : String) (et : Option String)
    (acc : List String × List String) (p : String × NodeAttrs) :
    ∃ d, (llmSearchStep q et acc p).2 = acc.2 ++ d := by
  rw [llmSearchStep]
  obtain ⟨d, hd⟩ := llmTypeStage_snd_ext q (llmNameStage q et acc p.1 p.2.group) p.1 p.2.group
  rw [hd, llmNameStage_snd]
  exact ⟨d, rfl⟩

theorem llm_fold_fst_ext (q : String) (et : Option String)
    (nodes : List (String × NodeAttrs)) (acc : List String × List String) :
    ∃ d, (nodes.foldl (llmSearchStep q et) acc).1 = acc.1 ++ d := by
  induction nodes generalizing acc with
  | nil => exact ⟨[], by simp⟩
  | cons p rest ih =>
      rw [List.foldl_cons]
      obtain ⟨d1, hd1⟩ := llmSearchStep_fst_ext q et acc p
      obtain ⟨d2, hd2⟩ := ih (llmSearchStep q et acc p)
      exact ⟨d1 ++ d2, by rw [hd2, hd1, List.append_assoc]⟩

theorem llm_fold_snd_ext (q : String) (et : Option String)
    (nodes : List (String × NodeAttrs)) (acc : List String × List String) :
    ∃ d, (nodes.foldl (llmSearchStep q et) acc).2 = acc.2 ++ d := by
  induction nodes generalizing acc with
  | nil => exact ⟨[], by simp⟩
  | cons p rest ih =>
      rw [List.foldl_cons]
      obtain ⟨d1, hd1⟩ := llmSearchStep_snd_ext q et acc p
      obtain ⟨d2, hd2⟩ := ih (llmSearchStep q et acc p)
      exact ⟨d1 ++ d2, by rw [hd2, hd1, List.append_assoc]⟩

theorem llm_fold_empty_iff (q : String) (nodes : List (String × NodeAttrs)) :
    nodes.foldl (llmSearchStep q none) ([], []) = (([] : List String), ([] : List String)) ↔
      ∀ p ∈ nodes, pyIn (pyLower q) (pyLower p.1) = false ∧
        pyIn (pyLower q) (pyLower p.2.group) = false := by
  induction nodes with
  | nil => simp
  | cons p rest ih =>
      rw [List.foldl_cons, List.forall_mem_cons]
      cases hname : pyIn (pyLower q) (pyLower p.1)
      · cases htype : pyIn (pyLower q) (pyLower p.2.group)
        · have hstep : llmSearchStep q none ([], []) p = ([], []) := by
            simp [llmSearchStep, llmNameStage, llmTypeStage, hname, htype]
          rw [hstep, ih]
          simp
        · have hstep : llmSearchStep q none ([], []) p = ([], [p.1]) := by
            simp [llmSearchStep, llmNameStage, llmTypeStage, hname, htype]
          rw [hstep]
          obtain ⟨d, hd⟩ := llm_fold_snd_ext q none rest ([], [p.1])
          constructor
          · intro hcon
            have := congrArg Prod.snd hcon
            rw [hd] at this
            simp at this
          · rintro ⟨⟨_, hcon⟩, _⟩
            simp at hcon
      · have hstep : llmSearchStep q none ([], []) p = ([p.1], (llmSearchStep q none ([], []) p).2) := by
          have h1 : (llmSearchStep q none ([], []) p).1 = [p.1] := by
            rw [llmSearchStep, llmTypeStage_fst, llmNameStage, hname]
            rfl
          rw [← h1]
        rw [hstep]
        obtain ⟨d, hd⟩ := llm_fold_fst_ext q none rest ([p.1], (llmSearchStep q none ([], []) p).2)
        constructor
        · intro hcon
          have := congrArg Prod.fst hcon
          rw [hd] at this
          simp at this
        · rintro ⟨⟨hcon, _⟩, _⟩
          simp at hcon

/-- In the LLM engine a search with no usable type hint reports NotFound
exactly when no node matches by name and no node matches by type. -/
theorem searchLlm_notFound_iff (G : Graph) (q : String) (hq : pyStrip q ≠ "") :
    searchLlm G q none = .notFound ↔
      ∀ p ∈ G.nodes, pyIn (pyLower (pyStrip q)) (pyLower p.1) = false ∧
        pyIn (pyLower (pyStrip q)) (pyLower p.2.group) = false := by
  simp only [searchLlm]
  rw [if_neg hq]
  rw [← llm_fold_empty_iff (pyStrip q) G.nodes]
  split
  · rename_i h
    simp only [iff_true_intro rfl, true_iff]
    exact Prod.ext h.1 h.2
  · rename_i h
    constructor
    · intro hcon
      exact absurd hcon (by simp)
    · intro hall
      exact absurd ⟨congrArg Prod.fst hall, congrArg Prod.snd hall⟩ h

/-- In the plain engine NotFound is reported exactly when no node matches
by name (types are not searched at all there). -/
theorem searchPlain_notFound_iff (G : Graph) (q : String) (hq : pyStrip q ≠ "") :
    searchPlain G q = .notFound ↔
      ∀ p ∈ G.nodes, pyIn (pyLower (pyStrip q)) (pyLower p.1) = false := by
  simp only [searchPlain]
  rw [if_neg hq]
  have hiff : ((G.nodes.filter
        (fun p => pyIn (pyLower (pyStrip q)) (pyLower p.1))).map (·.1) = []) ↔
      ∀ p ∈ G.nodes, pyIn (pyLower (pyStrip q)) (pyLower p.1) = false := by
    rw [List.map_eq_nil_iff, List.filter_eq_nil_iff]
    constructor
    · intro h p hp
      have := h p hp
      simpa using this
    · intro h p hp
      simp [h p hp]
  split
  · rename_i h
    simp only [true_iff]
    exact hiff.mp h
  · rename_i h
    constructor
    · intro hcon
      exact absurd hcon (by simp)
    · intro hall
      exact absurd (hiff.mpr hall) h

/-- C6 counterexample: the plain engine (`search_graph.py`) searches node
names only — against a graph whose single node has name "Central" and
type "café", the query "café" matches by the type criterion yet the
search reports NotFound, so NotFound is not "exactly when no node matches
either criterion" for that engine. -/
theorem c6_counterexample :
    searchPlain gC6 "café" = .notFound ∧
    pyIn (pyLower "café") (pyLower "café") = true ∧
    nodeGroup gC6 "Central" = some "café" ∧
    searchLlm gC6 "café" none = .found [] ["Central"] := by
  exact ⟨by decide, by decide, by decide, by decide⟩

/-- C6 (amended): the LLM engine reports NotFound exactly when no node
matches by case-insensitive name substring or type substring, and this is
a returned value rather than an exception; the plain engine searches
names only, so a node matching only by type still yields NotFound there.
Search("café") matches the node "Café Central" in both engines;
Search("xyz123") yields NotFound in both. -/
theorem c6_search_notfound :
    (∀ G q, pyStrip q ≠ "" →
        (searchLlm G q none = .notFound ↔
          ∀ p ∈ G.nodes, pyIn (pyLower (pyStrip q)) (pyLower p.1) = false ∧
            pyIn (pyLower (pyStrip q)) (pyLower p.2.group) = false)) ∧
    (∀ G q, pyStrip q ≠ "" →
        (searchPlain G q = .notFound ↔
          ∀ p ∈ G.nodes, pyIn (pyLower (pyStrip q)) (pyLower p.1) = false)) ∧
    searchPlain gCafe "café" = .found ["Café Central"] ∧
    searchLlm gCafe "café" none = .found ["Café Central"] [] ∧
    searchPlain gCafe "xyz123" = .notFound ∧
    searchLlm gCafe "xyz123" none = .notFound :=
  ⟨searchLlm_notFound_iff, searchPlain_notFound_iff,
   by decide, by decide, by decide, by decide⟩

/-- Witness for `c6_search_notfound`: the LLM-engine characterization
instantiated on `gC6` and the query "zzz" (no name or type contains it). -/
theorem c6_search_notfound_witness :
    searchLlm gC6 "zzz" none = LlmResult.notFound :=
  (c6_search_notfound.1 gC6 "zzz" (by decide)).mpr (by decide)

theorem pyStrip_of_all_space (q : String) (h : ∀ c ∈ q.data, pySpace c = true) :
    pyStrip q = "" := by
  unfold pyStrip
  have h1 : q.data.dropWhile pySpace = [] := List.dropWhile_eq_nil_iff.mpr h
  rw [h1]
  rfl

/-- C10: a query that is empty or consists only of whitespace is stripped
to the empty string and both search engines return immediately with the
early-return outcome — no node is matched and the NotFound report is not
produced (the empty query is a no-op, not a universal match). -/
theorem c10_empty_query (q : String) (h : ∀ c ∈ q.data, pySpace c = true)
    (G : Graph) (et : Option String) :
    searchPlain G q = .emptyQuery ∧ searchLlm G q et = .emptyQuery := by
  have hs := pyStrip_of_all_space q h
  constructor
  · simp only [searchPlain]
    rw [if_pos hs]
  · simp only [searchLlm]
    rw [if_pos hs]

/-- Witness for `c10_empty_query`: the whitespace query `" \t "` against
the concrete graph `gCafe`. -/
theorem c10_empty_query_witness :
    searchPlain gCafe " \t " = .emptyQuery ∧ searchLlm gCafe " \t " none = .emptyQuery :=
  c10_empty_query " \t " (by decide) gCafe none

/-! ## Claim C7 -/

/-- C7 counterexample: a non-numeric `relationship_strength` does not
default to 1 — `int("notanumber")` raises an uncaught `ValueError` that
aborts the whole block (so malformed strengths do abort the batch) — and
a numeric strength of 0 is stored as weight 0, so no `≥ 1` clamp is
applied either. -/
theorem c7_counterexample :
    relationshipStrength (some (.vStr "notanumber")) =
      .error "ValueError: invalid literal for int()" ∧
    processRelationship emptyGraph
      { source_entity := some "A", target_entity := some "B",
        relationship_description := some "d",
        relationship_strength := some (.vStr "notanumber") } =
      .error "ValueError: invalid literal for int()" ∧
    (processRelationship emptyGraph
      { source_entity := some "A", target_entity := some "B",
        relationship_description := some "d",
        relationship_strength := some (.vInt 0) }).map
        (fun G => edgeWeight G "A" "B") = .ok (some 0) :=
  ⟨rfl, rfl, rfl⟩

/-- C7 (amended): the edge weight of a shape-(a) relationship equals
`int(relationship_strength)`, defaulting to 1 only when the field is
missing; an integer value passes through unchanged and unclamped (0 and
negative values included), and a non-numeric value raises an uncaught
`ValueError` that aborts the batch instead of defaulting. -/
theorem c7_relationship_strength :
    relationshipStrength none = .ok 1 ∧
    (∀ n : Int, relationshipStrength (some (.vInt n)) = .ok n) ∧
    relationshipStrength (some (.vStr "7")) = .ok 7 ∧
    relationshipStrength (some (.vStr "notanumber")) =
      .error "ValueError: invalid literal for int()" ∧
    (∀ G : Graph, ∀ r : RelRec, r.relationship_strength = some (.vStr "notanumber") →
        processRelationship G r = .error "ValueError: invalid literal for int()") ∧
    (processRelationship emptyGraph
      { source_entity := some "A", target_entity := some "B",
        relationship_description := some "d",
        relationship_strength := some (.vInt (-4)) }).map
        (fun G => edgeWeight G "A" "B") = .ok (some (-4)) := by
  refine ⟨rfl, fun n => rfl, rfl, rfl, ?_, rfl⟩
  intro G r hr
  rw [processRelationship, hr]
  rfl

/-- Witness for `c7_relationship_strength`: the abort clause applied to a
concrete malformed record. -/
theorem c7_relationship_strength_witness :
    processRelationship gC4
      { source_entity := some "X", target_entity := some "A",
        relationship_description := none,
        relationship_strength := some (.vStr "notanumber") } =
      .error "ValueError: invalid literal for int()" :=
  c7_relationship_strength.2.2.2.2.1 gC4
    { source_entity := some "X", target_entity := some "A",
      relationship_description := none,
      relationship_strength := some (.vStr "notanumber") } rfl

/-! ## Claim C8 -/

theorem loadGraph_nodes_aux (ns : List SnapNode) (G0 : Graph)
    (hnd : (ns.map (·.id)).Nodup)
    (hdis : ∀ n ∈ ns, findNode G0 n.id = none) :
    ns.foldl snapAddNode G0 =
      { nodes := G0.nodes ++ ns.map (fun n => (n.id, snapNodeAttrs n)),
        edges := G0.edges } := by
  induction ns generalizing G0 with
  | nil => simp
  | cons n rest ih =>
      rw [List.foldl_cons]
      have hn : findNode G0 n.id = none := hdis n (List.mem_cons_self n rest)
      have hstep : snapAddNode G0 n = addNode G0 n.id (snapNodeAttrs n) := by
        rw [snapAddNode, hn]
      rw [List.map_cons] at hnd
      rw [List.nodup_cons] at hnd
      rw [hstep, ih (addNode G0 n.id (snapNodeAttrs n)) hnd.2 (by
        intro m hm
        have hne : m.id ≠ n.id := by
          intro he
          exact hnd.1 (he ▸ List.mem_map_of_mem (·.id) hm)
        rw [findNode_addNode_other G0 n.id m.id _ hne]
        exact hdis m (List.mem_cons_of_mem n hm))]
      rw [addNode]
      simp [List.append_assoc]

theorem loadGraph_edges_aux (ls : List SnapLink) (G0 : Graph)
    (hnd : (ls.map (fun l => (l.source, l.target))).Nodup)
    (hdis : ∀ l ∈ ls, findEdge G0 l.source l.target = none) :
    ls.foldl snapAddEdge G0 =
      { nodes := G0.nodes,
        edges := G0.edges ++ ls.map (fun l => ((l.source, l.target), snapLinkAttrs l)) } := by
  induction ls generalizing G0 with
  | nil => simp
  | cons l rest ih =>
      rw [List.foldl_cons]
      have hl : findEdge G0 l.source l.target = none := hdis l (List.mem_cons_self l rest)
      have hstep : snapAddEdge G0 l = addEdge G0 l.source l.target (snapLinkAttrs l) := by
        rw [snapAddEdge, hl]
      rw [List.map_cons] at hnd
      rw [List.nodup_cons] at hnd
      rw [hstep, ih (addEdge G0 l.source l.target (snapLinkAttrs l)) hnd.2 (by
        intro m hm
        have hne : (m.source, m.target) ≠ (l.source, l.target) := by
          intro he
          exact hnd.1 (he ▸ List.mem_map_of_mem (fun l => (l.source, l.target)) hm)
        rw [findEdge_addEdge_other G0 l.source l.target m.source m.target _ hne]
        exact hdis m (List.mem_cons_of_mem l hm))]
      rw [addEdge]
      simp [List.append_assoc]

/-- C8: exporting a built, annotated graph with `nx.node_link_data` and
reloading the snapshot with `nx.node_link_graph` in a fresh process
reproduces the identical graph — same node list with all attributes
(community id included), same directed edge list with weight, description
and label — provided node names and edge pairs are unique (which the
builder guarantees) and every edge endpoint is a listed node (which
`networkx` guarantees). -/
theorem findEdge_of_edges_nil (G : Graph) (h : G.edges = []) (u v : String) :
    findEdge G u v = none := by
  unfold findEdge assocFind?
  rw [h]
  rfl

theorem map_mk_fst_snd {α β : Type} (l : List (α × β)) :
    l.map (fun p => (p.1, p.2)) = l := by
  induction l with
  | nil => rfl
  | cons a l ih => rw [List.map_cons, ih]

theorem c8_snapshot_roundtrip (G : Graph)
    (hn : (G.nodes.map (·.1)).Nodup) (he : (G.edges.map (·.1)).Nodup) :
    loadGraph (exportGraphData G) = G := by
  rw [loadGraph, exportGraphData]
  have hkeysn : ((G.nodes.map (fun p =>
      ({ id := p.1, group := p.2.group, title := p.2.title,
         description := p.2.description, degree := p.2.degree,
         community := p.2.community,
         communityColor := p.2.communityColor } : SnapNode))).map (·.id)).Nodup := by
    rw [List.map_map]
    exact hn
  have hkeyse : ((G.edges.map (fun p =>
      ({ source := p.1.1, target := p.1.2, weight := p.2.weight,
         description := p.2.description, label := p.2.label,
         title := p.2.title, group := p.2.group } : SnapLink))).map
        (fun l => (l.source, l.target))).Nodup := by
    rw [List.map_map]
    exact he
  rw [loadGraph_nodes_aux _ emptyGraph hkeysn (fun n _ => rfl)]
  rw [loadGraph_edges_aux _ _ hkeyse
    (fun l _ => findEdge_of_edges_nil _ rfl l.source l.target)]
  rw [List.map_map, List.map_map]
  show Graph.mk (emptyGraph.nodes ++ G.nodes.map (fun p => (p.1, p.2)))
      (emptyGraph.edges ++ G.edges.map (fun p => ((p.1.1, p.1.2), p.2))) = G
  have h1 : emptyGraph.nodes = ([] : List (String × NodeAttrs)) := rfl
  have h2 : emptyGraph.edges = ([] : List ((String × String) × EdgeAttrs)) := rfl
  rw [h1, h2, List.nil_append, List.nil_append, map_mk_fst_snd]
  show Graph.mk G.nodes (G.edges.map (fun p => (p.1, p.2))) = G
  rw [map_mk_fst_snd]

/-- Witness for `c8_snapshot_roundtrip`: the concrete annotated graph
`gC8` survives the export/reload round trip unchanged. -/
theorem c8_snapshot_roundtrip_witness : loadGraph (exportGraphData gC8) = gC8 :=
  c8_snapshot_roundtrip gC8 (by decide) (by decide)

end WifiNetworkx
